import Mathlib

/-
Verification of the earnx50 referral/deposit bot (src/main.py).

The accounting core of the bot — the multiplier function, the referral
engine, the deposit and withdrawal lifecycles and the maturation sweep —
is embedded shallowly: the sqlite tables become lists of records, each
`db_*` helper of main.py becomes a pure state transformer, and the
business handlers are translated statement by statement.  Monetary
values (Python floats holding decimal amounts) are modelled as rationals;
`round(x, n)` is modelled as rounding `x * 10^n` to the nearest integer.
-/

namespace EarnX

/-- Decimal rounding to `n` places, the model of Python `round(x, n)`
(main.py lines 117, 224, 241).  Ties differ from Python banker's
rounding only at exact half-ulps, which no claim exercises. -/
def roundTo (n : ℕ) (x : ℚ) : ℚ := (round (x * 10 ^ n) : ℤ) / 10 ^ n

/-- The environment-supplied configuration surface (main.py lines 34-45). -/
structure Config where
  MIN_DEPOSIT : ℚ
  PAYOUT_SECONDS : ℤ
  PAYOUT_MULT_START : ℚ
  PAYOUT_MULT_MIN : ℚ
  PAYOUT_DECAY_PER_DAY : ℚ
  REF_BONUS_JOIN : ℚ
  REF_BONUS_DEPOSIT_PERCENT : ℚ
  MIN_WITHDRAW : ℚ
  MIN_COUNTED_REFERRALS_FOR_WITHDRAW : ℤ
deriving DecidableEq

/-- The default configuration values of main.py lines 34-42. -/
def defaultConfig : Config where
  MIN_DEPOSIT := 5
  PAYOUT_SECONDS := 86400
  PAYOUT_MULT_START := 5
  PAYOUT_MULT_MIN := 2
  PAYOUT_DECAY_PER_DAY := 1 / 20
  REF_BONUS_JOIN := 1
  REF_BONUS_DEPOSIT_PERCENT := 1 / 5
  MIN_WITHDRAW := 45
  MIN_COUNTED_REFERRALS_FOR_WITHDRAW := 5

/-- main.py lines 110-111: `max(0, floor((now - launch_ts) / 86400))`.
Python `floor` of the true quotient is integer floor division. -/
def days_since_launch (now launch_ts : ℤ) : ℤ :=
  max 0 (Int.fdiv (now - launch_ts) 86400)

/-- main.py lines 113-117: the decaying payout multiplier. -/
def current_multiplier (cfg : Config) (now launch_ts : ℤ) : ℚ :=
  let mult := cfg.PAYOUT_MULT_START -
    cfg.PAYOUT_DECAY_PER_DAY * (days_since_launch now launch_ts : ℚ)
  roundTo 4 (if mult < cfg.PAYOUT_MULT_MIN then cfg.PAYOUT_MULT_MIN else mult)

/-- A row of the `users` table (main.py lines 61-72). -/
structure User where
  user_id : ℤ
  username : String
  balance : ℚ
  referred_by : Option ℤ
  counted_for_referrer : Bool
  counted_referrals : ℤ
  total_referrals : ℤ
  has_deposited : Bool
deriving DecidableEq

/-- Status column of the `deposits` table. -/
inductive DStatus
  | PENDING
  | APPROVED
  | REJECTED
  | PAID
deriving DecidableEq

/-- A row of the `deposits` table (main.py lines 73-85). -/
structure Deposit where
  id : ℕ
  user_id : ℤ
  amount : ℚ
  chain : String
  txid : String
  ts : ℤ
  status : DStatus
  payout_mult : ℚ
  payout_ts : ℤ
deriving DecidableEq

/-- Status column of the `withdrawals` table. -/
inductive WStatus
  | PENDING
  | PAID
  | REJECTED
deriving DecidableEq

/-- A row of the `withdrawals` table (main.py lines 86-96). -/
structure Withdrawal where
  id : ℕ
  user_id : ℤ
  amount : ℚ
  network : String
  address : String
  ts : ℤ
  status : WStatus
deriving DecidableEq

/-- The sqlite database state: the three row tables. -/
structure St where
  users : List User
  deposits : List Deposit
  withdrawals : List Withdrawal
deriving DecidableEq

/-- main.py lines 119-121: `SELECT ... FROM users WHERE user_id=?`. -/
def db_user (st : St) (uid : ℤ) : Option User :=
  st.users.find? fun u => decide (u.user_id = uid)

/-- Model of `UPDATE users SET ... WHERE user_id=?`: rewrite every row
whose key matches (there is at most one, but sqlite semantics is
rewrite-all). -/
def updUser (st : St) (uid : ℤ) (f : User → User) : St :=
  { st with users := st.users.map fun u => if u.user_id = uid then f u else u }

/-- main.py lines 133-135. -/
def db_add_balance (st : St) (uid : ℤ) (amount : ℚ) : St :=
  updUser st uid fun u => { u with balance := u.balance + amount }

/-- main.py lines 137-139. -/
def db_set_counted_for_referrer (st : St) (uid : ℤ) : St :=
  updUser st uid fun u => { u with counted_for_referrer := true }

/-- main.py lines 141-143. -/
def db_inc_counted_referrals (st : St) (ref_id : ℤ) (inc : ℤ) : St :=
  updUser st ref_id fun u => { u with counted_referrals := u.counted_referrals + inc }

/-- main.py lines 145-147. -/
def db_mark_deposited (st : St) (uid : ℤ) : St :=
  updUser st uid fun u => { u with has_deposited := true }

/-- main.py lines 159-161: `SELECT ... FROM deposits WHERE id=?`. -/
def db_get_deposit (st : St) (dep_id : ℕ) : Option Deposit :=
  st.deposits.find? fun d => decide (d.id = dep_id)

/-- Model of `UPDATE deposits SET ... WHERE id=?`. -/
def updDep (st : St) (dep_id : ℕ) (f : Deposit → Deposit) : St :=
  { st with deposits := st.deposits.map fun d => if d.id = dep_id then f d else d }

/-- main.py lines 163-165. -/
def db_approve_deposit (st : St) (dep_id : ℕ) (payout_mult : ℚ) : St :=
  updDep st dep_id fun d => { d with status := .APPROVED, payout_mult := payout_mult }

/-- main.py lines 167-169. -/
def db_reject_deposit (st : St) (dep_id : ℕ) : St :=
  updDep st dep_id fun d => { d with status := .REJECTED }

/-- main.py lines 171-174. -/
def db_mark_deposit_paid (st : St) (dep_id : ℕ) (now : ℤ) : St :=
  updDep st dep_id fun d => { d with status := .PAID, payout_ts := now }

/-- main.py lines 182-184 restricted to one id: lookup of a withdrawal row. -/
def db_get_withdrawal (st : St) (req_id : ℕ) : Option Withdrawal :=
  st.withdrawals.find? fun w => decide (w.id = req_id)

/-- Model of `UPDATE withdrawals SET ... WHERE id=?`. -/
def updW (st : St) (req_id : ℕ) (f : Withdrawal → Withdrawal) : St :=
  { st with withdrawals := st.withdrawals.map fun w => if w.id = req_id then f w else w }

/-- main.py lines 186-188. -/
def db_update_withdrawal_status (st : St) (req_id : ℕ) (s : WStatus) : St :=
  updW st req_id fun w => { w with status := s }

/-- The next AUTOINCREMENT id for the withdrawals table: one more than
the largest id ever used (no row is ever deleted). -/
def nextWId (st : St) : ℕ :=
  (st.withdrawals.foldr (fun w m => max w.id m) 0) + 1

/-- main.py lines 176-180: insert a PENDING withdrawal, return its id. -/
def db_insert_withdrawal (st : St) (uid : ℤ) (amount : ℚ)
    (network address : String) (ts : ℤ) : St × ℕ :=
  let i := nextWId st
  ({ st with withdrawals :=
      st.withdrawals ++ [⟨i, uid, amount, network, address, ts, .PENDING⟩] }, i)

/-- Outcome of `handle_new_ref_join` (main.py lines 203-204). -/
inductive JoinRes
  | counted (amount : ℚ)
  | queued (amount : ℚ)
deriving DecidableEq

/-- main.py lines 191-204: the join-referral operation.  Returns the
updated state and the Python return value (`None` when referrer or new
user is missing). -/
def handle_new_ref_join (cfg : Config) (st : St)
    (referrer_id new_user_id : ℤ) : St × Option JoinRes :=
  match db_user st referrer_id, db_user st new_user_id with
  | some ref, some newu =>
    if ref.counted_referrals < 3 ∧ newu.counted_for_referrer = false then
      let st1 := db_set_counted_for_referrer st new_user_id
      let st2 := db_inc_counted_referrals st1 referrer_id 1
      let st3 := db_add_balance st2 referrer_id cfg.REF_BONUS_JOIN
      (st3, some (.counted cfg.REF_BONUS_JOIN))
    else
      (st, some (.queued 0))
  | _, _ => (st, none)

/-- Outcome of `handle_deposit_approved` (main.py lines 226-227). -/
inductive DepRes
  | approved_ref_bonus (bonus mult : ℚ)
  | approved_no_ref (bonus mult : ℚ)
deriving DecidableEq

/-- main.py lines 206-227: admin approval of a deposit.  `if ref:` in
Python is falsy both for `None` and for the integer 0, hence the
explicit 0-test on the referrer id. -/
def handle_deposit_approved (cfg : Config) (now launch_ts : ℤ) (st : St)
    (dep_id : ℕ) : St × Option DepRes :=
  match db_get_deposit st dep_id with
  | none => (st, none)
  | some dep =>
    let mult := current_multiplier cfg now launch_ts
    let st1 := db_approve_deposit st dep_id mult
    let st2 := db_mark_deposited st1 dep.user_id
    match db_user st2 dep.user_id with
    | some user =>
      match user.referred_by with
      | some ref =>
        if ref = 0 then (st2, some (.approved_no_ref 0 mult))
        else
          let st3 :=
            if user.counted_for_referrer = false then
              db_inc_counted_referrals (db_set_counted_for_referrer st2 dep.user_id) ref 1
            else st2
          let bonus := roundTo 6 (dep.amount * cfg.REF_BONUS_DEPOSIT_PERCENT)
          let st4 := db_add_balance st3 ref bonus
          (st4, some (.approved_ref_bonus bonus mult))
      | none => (st2, some (.approved_no_ref 0 mult))
    | none => (st2, some (.approved_no_ref 0 mult))

/-- The maturation predicate of the worker query (main.py line 236):
`status='APPROVED' AND payout_ts=0 AND ts<=cutoff`. -/
def matured (cfg : Config) (now : ℤ) (d : Deposit) : Bool :=
  decide (d.status = .APPROVED ∧ d.payout_ts = 0 ∧ d.ts ≤ now - cfg.PAYOUT_SECONDS)

/-- main.py line 240: the effective multiplier for a matured deposit.
`payout_mult if payout_mult and payout_mult > 0 else current_multiplier()`
reduces to testing `payout_mult > 0` since 0.0 is falsy. -/
def effective_mult (cfg : Config) (now launch_ts : ℤ) (d : Deposit) : ℚ :=
  if 0 < d.payout_mult then d.payout_mult else current_multiplier cfg now launch_ts

/-- main.py line 241: the credited payout of one matured deposit. -/
def payoutOf (cfg : Config) (now launch_ts : ℤ) (d : Deposit) : ℚ :=
  roundTo 6 (d.amount * effective_mult cfg now launch_ts d)

/-- main.py lines 238-243: processing of one row of the worker query. -/
def processMatured (cfg : Config) (now launch_ts : ℤ) (st : St) (d : Deposit) : St :=
  db_mark_deposit_paid (db_add_balance st d.user_id (payoutOf cfg now launch_ts d)) d.id now

/-- main.py lines 234-243: one sweep of the payout worker — select the
matured rows once, then process each in order. -/
def sweep (cfg : Config) (now launch_ts : ℤ) (st : St) : St :=
  (st.deposits.filter (matured cfg now)).foldl (processMatured cfg now launch_ts) st

/-- Outcome of the admin deposit-approval callback. -/
inductive DepAdminRes
  | depNotFound
  | approvedDep (r : Option DepRes)
  | rejectedDep
deriving DecidableEq

/-- main.py lines 440-454: the `approve_deposit:` branch of `cb_admin`.
The only guard is existence of the row; the status is never inspected. -/
def cb_admin_approve_deposit (cfg : Config) (now launch_ts : ℤ) (st : St)
    (depid : ℕ) : St × DepAdminRes :=
  match db_get_deposit st depid with
  | none => (st, .depNotFound)
  | some _ =>
    let p := handle_deposit_approved cfg now launch_ts st depid
    (p.1, .approvedDep p.2)

/-- main.py lines 455-462: the `reject_deposit:` branch of `cb_admin`. -/
def cb_admin_reject_deposit (st : St) (depid : ℕ) : St × DepAdminRes :=
  match db_get_deposit st depid with
  | none => (st, .depNotFound)
  | some _ => (db_reject_deposit st depid, .rejectedDep)

/-- Outcome of the admin withdrawal callbacks. -/
inductive WAdminRes
  | wNotFound
  | insufficientBalance
  | paidOut
  | declined
deriving DecidableEq

/-- main.py lines 463-486: the `approve_withdraw:` branch of `cb_admin` —
re-read the balance, bail out without mutation when it is below the
requested amount, otherwise debit and mark PAID.  The row status is never
inspected. -/
def cb_admin_approve_withdraw (st : St) (reqid : ℕ) : St × WAdminRes :=
  match db_get_withdrawal st reqid with
  | none => (st, .wNotFound)
  | some row =>
    match db_user st row.user_id with
    | none => (st, .insufficientBalance)
    | some u =>
      if u.balance < row.amount then (st, .insufficientBalance)
      else
        let st1 := updUser st row.user_id fun x => { x with balance := x.balance - row.amount }
        (db_update_withdrawal_status st1 reqid .PAID, .paidOut)

/-- main.py lines 487-494: the `decline_withdraw:` branch of `cb_admin`. -/
def cb_admin_decline_withdraw (st : St) (reqid : ℕ) : St × WAdminRes :=
  match db_get_withdrawal st reqid with
  | none => (st, .wNotFound)
  | some _ => (db_update_withdrawal_status st reqid .REJECTED, .declined)

/-- Outcome of the composite withdrawal-request flow. -/
inductive WReqRes
  | notRegistered
  | notEligible
  | belowMinimum
  | insufficientReferrals
  | insufficientBalanceReq
  | submitted (req_id : ℕ)
deriving DecidableEq

/-- main.py lines 379-433: the withdrawal-request conversation collapsed
to one operation over a single state snapshot — `cmd_withdraw_start`
gates on registration and `has_deposited`, `withdraw_amount` gates on
minimum balance, counted referrals and requested amount, and
`withdraw_address` inserts the PENDING row.  No balance is debited. -/
def withdraw_request (cfg : Config) (st : St) (uid : ℤ) (amount : ℚ)
    (network address : String) (ts : ℤ) : St × WReqRes :=
  match db_user st uid with
  | none => (st, .notRegistered)
  | some row =>
    if row.has_deposited = false then (st, .notEligible)
    else if row.balance < cfg.MIN_WITHDRAW then (st, .belowMinimum)
    else if row.counted_referrals < cfg.MIN_COUNTED_REFERRALS_FOR_WITHDRAW then
      (st, .insufficientReferrals)
    else if row.balance < amount then (st, .insufficientBalanceReq)
    else
      let p := db_insert_withdrawal st uid amount network address ts
      (p.1, .submitted p.2)

/-- Balance of a user as read by the handlers (0 when the row is absent). -/
def balanceOf (st : St) (uid : ℤ) : ℚ :=
  ((db_user st uid).map User.balance).getD 0

/-- Counted-referrals column of a user (0 when the row is absent). -/
def cRefsOf (st : St) (uid : ℤ) : ℤ :=
  ((db_user st uid).map User.counted_referrals).getD 0

/-- The `counted_for_referrer` flag of a user (false when absent). -/
def flagOf (st : St) (uid : ℤ) : Bool :=
  ((db_user st uid).map User.counted_for_referrer).getD false

/-- The `has_deposited` flag of a user (false when absent). -/
def hasDepOf (st : St) (uid : ℤ) : Bool :=
  ((db_user st uid).map User.has_deposited).getD false

/-- Status of a withdrawal row, when present. -/
def wStatusOf (st : St) (req_id : ℕ) : Option WStatus :=
  (db_get_withdrawal st req_id).map Withdrawal.status

/-- The rows selected by the worker query in one sweep (main.py line 236). -/
def maturedSelection (cfg : Config) (now : ℤ) (st : St) : List Deposit :=
  st.deposits.filter (matured cfg now)

/-- Total amount one sweep credits to user `uid`: the payouts of the
selected deposits owned by `uid`. -/
def payoutSum (cfg : Config) (now launch_ts : ℤ) (uid : ℤ) (l : List Deposit) : ℚ :=
  ((l.filter fun d => decide (d.user_id = uid)).map (payoutOf cfg now launch_ts)).sum

/-- The two operations that can set `counted_for_referrer` (main.py
lines 191-227), for trace-level invariants. -/
inductive Op where
  | join (referrer_id new_user_id : ℤ)
  | approveDep (dep_id : ℕ)
deriving DecidableEq

/-- One step of the referral state machine. -/
def step (cfg : Config) (now launch_ts : ℤ) (st : St) : Op → St
  | .join r n => (handle_new_ref_join cfg st r n).1
  | .approveDep i => (handle_deposit_approved cfg now launch_ts st i).1

/-- Number of steps of the trace at which user `u`'s
`counted_for_referrer` flag flips from false to true. -/
def flipCount (cfg : Config) (now launch_ts : ℤ) (u : ℤ) : St → List Op → ℕ
  | _, [] => 0
  | st, op :: ops =>
    (if flagOf st u = false ∧ flagOf (step cfg now launch_ts st op) u = true then 1 else 0) +
      flipCount cfg now launch_ts u (step cfg now launch_ts st op) ops

/-! Concrete states used to instantiate the theorems. -/

/-- A registered referrer who already has three counted referrals. -/
def userRef : User := ⟨1, "ref", 0, none, false, 3, 3, false⟩

/-- A registered user referred by `userRef`, not yet counted. -/
def userDep : User := ⟨2, "dep", 0, some 1, false, 0, 0, false⟩

/-- A pending 100-unit deposit by `userDep`. -/
def depPending : Deposit := ⟨1, 2, 100, "SOL", "tx1", 0, .PENDING, 0, 0⟩

/-- State with one pending deposit awaiting admin approval. -/
def stPendingDep : St := ⟨[userRef, userDep], [depPending], []⟩

/-- A user who registered giving their own id as referral code. -/
def userSelf : User := ⟨5, "self", 0, some 5, false, 0, 0, false⟩

/-- A pending deposit by the self-referred user. -/
def depSelf : Deposit := ⟨1, 5, 100, "SOL", "tx2", 0, .PENDING, 0, 0⟩

/-- State exhibiting a self-referred depositor. -/
def stSelfRef : St := ⟨[userSelf], [depSelf], []⟩

/-- An eligible withdrawer: balance 50, five counted referrals, has a
paid deposit behind them. -/
def userWd : User := ⟨7, "wd", 50, none, false, 5, 5, true⟩

/-- State with only the eligible withdrawer. -/
def stEligible : St := ⟨[userWd], [], []⟩

/-- A pending withdrawal of 45 by `userWd`. -/
def wdPending : Withdrawal := ⟨1, 7, 45, "TRC20", "addr", 0, .PENDING⟩

/-- State with a pending withdrawal awaiting admin approval. -/
def stPendingWd : St := ⟨[userWd], [], [wdPending]⟩

/-- An approved, matured deposit of 100 at locked multiplier 4. -/
def depMatured : Deposit := ⟨1, 2, 100, "SOL", "tx3", 0, .APPROVED, 4, 0⟩

/-- State on which a sweep should pay out `depMatured`. -/
def stMatured : St := ⟨[userRef, userDep], [depMatured], []⟩

/-- A fresh referrer with no counted referrals. -/
def userA : User := ⟨10, "A", 0, none, false, 0, 0, false⟩

/-- A fresh user referred by `userA`. -/
def userB : User := ⟨11, "B", 0, some 10, false, 0, 0, false⟩

/-- State before `userB`'s join is processed. -/
def stJoin : St := ⟨[userA, userB], [], []⟩

/-! Lookup / update interaction lemmas.  A keyed `UPDATE ... WHERE key=?`
rewrites every matching row; a keyed `SELECT` returns the first matching
row.  The two stay consistent without any uniqueness assumption. -/

theorem find?_upd {α : Type} {κ : Type} [DecidableEq κ] (key : α → κ) (f : α → α)
    (hf : ∀ x, key (f x) = key x) (t v : κ) (l : List α) :
    (l.map fun x => if key x = t then f x else x).find? (fun x => decide (key x = v)) =
      if v = t then (l.find? fun x => decide (key x = v)).map f
      else l.find? fun x => decide (key x = v) := by
  have expand : ∀ (a : α) (m : List α),
      (a :: m).find? (fun y => decide (key y = v)) =
        if key a = v then some a else m.find? (fun y => decide (key y = v)) := by
    intro a m
    rw [List.find?_cons]
    by_cases h : key a = v
    · rw [if_pos h]; simp [h]
    · rw [if_neg h]; simp [h]
  induction l with
  | nil => split <;> rfl
  | cons x xs ih =>
    have hgx : key (if key x = t then f x else x) = key x := by
      split
      · exact hf x
      · rfl
    rw [List.map_cons, expand, expand, hgx]
    by_cases hx : key x = v
    · by_cases hvt : v = t
      · rw [if_pos hx, if_pos hvt, if_pos hx, if_pos (hx.trans hvt)]
        rfl
      · rw [if_pos hx, if_neg hvt, if_pos hx, if_neg (fun h => hvt (by rw [← hx, h]))]
    · by_cases hvt : v = t
      · rw [if_neg hx, if_pos hvt, if_neg hx, ih, if_pos hvt]
      · rw [if_neg hx, if_neg hvt, if_neg hx, ih, if_neg hvt]

theorem db_user_updUser (st : St) (t : ℤ) (f : User → User)
    (hf : ∀ u, (f u).user_id = u.user_id) (v : ℤ) :
    db_user (updUser st t f) v =
      if v = t then (db_user st v).map f else db_user st v :=
  find?_upd User.user_id f hf t v st.users

theorem db_get_deposit_updDep (st : St) (t : ℕ) (f : Deposit → Deposit)
    (hf : ∀ d, (f d).id = d.id) (v : ℕ) :
    db_get_deposit (updDep st t f) v =
      if v = t then (db_get_deposit st v).map f else db_get_deposit st v :=
  find?_upd Deposit.id f hf t v st.deposits

theorem db_get_withdrawal_updW (st : St) (t : ℕ) (f : Withdrawal → Withdrawal)
    (hf : ∀ w, (f w).id = w.id) (v : ℕ) :
    db_get_withdrawal (updW st t f) v =
      if v = t then (db_get_withdrawal st v).map f else db_get_withdrawal st v :=
  find?_upd Withdrawal.id f hf t v st.withdrawals

@[simp] theorem db_user_updDep (st : St) (i : ℕ) (f : Deposit → Deposit) (v : ℤ) :
    db_user (updDep st i f) v = db_user st v := rfl

@[simp] theorem db_user_updW (st : St) (i : ℕ) (f : Withdrawal → Withdrawal) (v : ℤ) :
    db_user (updW st i f) v = db_user st v := rfl

@[simp] theorem db_get_deposit_updUser (st : St) (t : ℤ) (f : User → User) (i : ℕ) :
    db_get_deposit (updUser st t f) i = db_get_deposit st i := rfl

@[simp] theorem db_get_deposit_updW (st : St) (t : ℕ) (f : Withdrawal → Withdrawal) (i : ℕ) :
    db_get_deposit (updW st t f) i = db_get_deposit st i := rfl

@[simp] theorem db_get_withdrawal_updUser (st : St) (t : ℤ) (f : User → User) (i : ℕ) :
    db_get_withdrawal (updUser st t f) i = db_get_withdrawal st i := rfl

@[simp] theorem db_get_withdrawal_updDep (st : St) (t : ℕ) (f : Deposit → Deposit) (i : ℕ) :
    db_get_withdrawal (updDep st t f) i = db_get_withdrawal st i := rfl

theorem db_user_updUser_other (st : St) (t : ℤ) (f : User → User)
    (hf : ∀ u, (f u).user_id = u.user_id) (v : ℤ) (hv : v ≠ t) :
    db_user (updUser st t f) v = db_user st v := by
  rw [db_user_updUser st t f hf v, if_neg hv]

theorem db_user_updUser_self (st : St) (t : ℤ) (f : User → User)
    (hf : ∀ u, (f u).user_id = u.user_id) :
    db_user (updUser st t f) t = (db_user st t).map f := by
  rw [db_user_updUser st t f hf t, if_pos rfl]

theorem optGetD_map_updUser {β : Type} (φ : User → β) (dflt : β) (st : St) (t : ℤ)
    (f : User → User) (hf : ∀ u, (f u).user_id = u.user_id)
    (hφ : ∀ u, φ (f u) = φ u) (v : ℤ) :
    ((db_user (updUser st t f) v).map φ).getD dflt = ((db_user st v).map φ).getD dflt := by
  rw [db_user_updUser st t f hf v]
  split
  · cases db_user st v <;> simp [hφ]
  · rfl

theorem balanceOf_eq_of_some {st : St} {v : ℤ} {u : User} (h : db_user st v = some u) :
    balanceOf st v = u.balance := by
  simp [balanceOf, h]

theorem cRefsOf_eq_of_some {st : St} {v : ℤ} {u : User} (h : db_user st v = some u) :
    cRefsOf st v = u.counted_referrals := by
  simp [cRefsOf, h]

theorem flagOf_eq_of_some {st : St} {v : ℤ} {u : User} (h : db_user st v = some u) :
    flagOf st v = u.counted_for_referrer := by
  simp [flagOf, h]

theorem db_user_add_balance (st : St) (t : ℤ) (a : ℚ) (v : ℤ) :
    db_user (db_add_balance st t a) v =
      if v = t then (db_user st v).map (fun u => { u with balance := u.balance + a })
      else db_user st v :=
  db_user_updUser st t (fun u => { u with balance := u.balance + a }) (fun _ => rfl) v

theorem db_user_set_counted (st : St) (t : ℤ) (v : ℤ) :
    db_user (db_set_counted_for_referrer st t) v =
      if v = t then (db_user st v).map (fun u => { u with counted_for_referrer := true })
      else db_user st v :=
  db_user_updUser st t (fun u => { u with counted_for_referrer := true }) (fun _ => rfl) v

theorem db_user_inc_cref (st : St) (t : ℤ) (k : ℤ) (v : ℤ) :
    db_user (db_inc_counted_referrals st t k) v =
      if v = t then (db_user st v).map (fun u => { u with counted_referrals := u.counted_referrals + k })
      else db_user st v :=
  db_user_updUser st t (fun u => { u with counted_referrals := u.counted_referrals + k }) (fun _ => rfl) v

theorem db_user_mark_deposited (st : St) (t : ℤ) (v : ℤ) :
    db_user (db_mark_deposited st t) v =
      if v = t then (db_user st v).map (fun u => { u with has_deposited := true })
      else db_user st v :=
  db_user_updUser st t (fun u => { u with has_deposited := true }) (fun _ => rfl) v

@[simp] theorem balanceOf_set_counted (st : St) (t : ℤ) (v : ℤ) :
    balanceOf (db_set_counted_for_referrer st t) v = balanceOf st v :=
  optGetD_map_updUser User.balance 0 st t (fun u => { u with counted_for_referrer := true }) (fun _ => rfl) (fun _ => rfl) v

@[simp] theorem balanceOf_inc_cref (st : St) (t : ℤ) (k : ℤ) (v : ℤ) :
    balanceOf (db_inc_counted_referrals st t k) v = balanceOf st v :=
  optGetD_map_updUser User.balance 0 st t (fun u => { u with counted_referrals := u.counted_referrals + k }) (fun _ => rfl) (fun _ => rfl) v

@[simp] theorem balanceOf_mark_deposited (st : St) (t : ℤ) (v : ℤ) :
    balanceOf (db_mark_deposited st t) v = balanceOf st v :=
  optGetD_map_updUser User.balance 0 st t (fun u => { u with has_deposited := true }) (fun _ => rfl) (fun _ => rfl) v

theorem balanceOf_add_self {st : St} {t : ℤ} {u : User} (a : ℚ)
    (h : db_user st t = some u) :
    balanceOf (db_add_balance st t a) t = u.balance + a := by
  unfold balanceOf db_add_balance
  rw [db_user_updUser st t (fun u => { u with balance := u.balance + a }) (fun _ => rfl) t,
    if_pos rfl, h]
  rfl

theorem balanceOf_add_other {st : St} {t v : ℤ} (a : ℚ) (hv : v ≠ t) :
    balanceOf (db_add_balance st t a) v = balanceOf st v := by
  unfold balanceOf db_add_balance
  rw [db_user_updUser st t (fun u => { u with balance := u.balance + a }) (fun _ => rfl) v,
    if_neg hv]

@[simp] theorem cRefsOf_add_balance (st : St) (t : ℤ) (a : ℚ) (v : ℤ) :
    cRefsOf (db_add_balance st t a) v = cRefsOf st v :=
  optGetD_map_updUser User.counted_referrals 0 st t (fun u => { u with balance := u.balance + a }) (fun _ => rfl) (fun _ => rfl) v

@[simp] theorem cRefsOf_set_counted (st : St) (t : ℤ) (v : ℤ) :
    cRefsOf (db_set_counted_for_referrer st t) v = cRefsOf st v :=
  optGetD_map_updUser User.counted_referrals 0 st t (fun u => { u with counted_for_referrer := true }) (fun _ => rfl) (fun _ => rfl) v

@[simp] theorem cRefsOf_mark_deposited (st : St) (t : ℤ) (v : ℤ) :
    cRefsOf (db_mark_deposited st t) v = cRefsOf st v :=
  optGetD_map_updUser User.counted_referrals 0 st t (fun u => { u with has_deposited := true }) (fun _ => rfl) (fun _ => rfl) v

theorem cRefsOf_inc_self {st : St} {t : ℤ} {u : User} (k : ℤ)
    (h : db_user st t = some u) :
    cRefsOf (db_inc_counted_referrals st t k) t = u.counted_referrals + k := by
  unfold cRefsOf db_inc_counted_referrals
  rw [db_user_updUser st t (fun u => { u with counted_referrals := u.counted_referrals + k })
    (fun _ => rfl) t, if_pos rfl, h]
  rfl

theorem cRefsOf_inc_other {st : St} {t v : ℤ} (k : ℤ) (hv : v ≠ t) :
    cRefsOf (db_inc_counted_referrals st t k) v = cRefsOf st v := by
  unfold cRefsOf db_inc_counted_referrals
  rw [db_user_updUser st t (fun u => { u with counted_referrals := u.counted_referrals + k })
    (fun _ => rfl) v, if_neg hv]

@[simp] theorem flagOf_add_balance (st : St) (t : ℤ) (a : ℚ) (v : ℤ) :
    flagOf (db_add_balance st t a) v = flagOf st v :=
  optGetD_map_updUser User.counted_for_referrer false st t (fun u => { u with balance := u.balance + a }) (fun _ => rfl) (fun _ => rfl) v

@[simp] theorem flagOf_inc_cref (st : St) (t : ℤ) (k : ℤ) (v : ℤ) :
    flagOf (db_inc_counted_referrals st t k) v = flagOf st v :=
  optGetD_map_updUser User.counted_for_referrer false st t (fun u => { u with counted_referrals := u.counted_referrals + k }) (fun _ => rfl) (fun _ => rfl) v

@[simp] theorem flagOf_mark_deposited (st : St) (t : ℤ) (v : ℤ) :
    flagOf (db_mark_deposited st t) v = flagOf st v :=
  optGetD_map_updUser User.counted_for_referrer false st t (fun u => { u with has_deposited := true }) (fun _ => rfl) (fun _ => rfl) v

theorem flagOf_set_self {st : St} {t : ℤ} {u : User} (h : db_user st t = some u) :
    flagOf (db_set_counted_for_referrer st t) t = true := by
  unfold flagOf db_set_counted_for_referrer
  rw [db_user_updUser st t (fun u => { u with counted_for_referrer := true }) (fun _ => rfl) t,
    if_pos rfl, h]
  rfl

theorem flagOf_set_other {st : St} {t v : ℤ} (hv : v ≠ t) :
    flagOf (db_set_counted_for_referrer st t) v = flagOf st v := by
  unfold flagOf db_set_counted_for_referrer
  rw [db_user_updUser st t (fun u => { u with counted_for_referrer := true }) (fun _ => rfl) v,
    if_neg hv]

/-! Arithmetic facts about `roundTo`, `days_since_launch` and
`current_multiplier`. -/

theorem roundTo_mono {n : ℕ} {x y : ℚ} (h : x ≤ y) : roundTo n x ≤ roundTo n y := by
  unfold roundTo
  have hp : (0 : ℚ) < 10 ^ n := by positivity
  have hr : round (x * 10 ^ n) ≤ round (y * 10 ^ n) := by
    rw [round_eq, round_eq]
    exact Int.floor_mono (add_le_add_right (mul_le_mul_of_nonneg_right h hp.le) _)
  exact div_le_div_of_nonneg_right (by exact_mod_cast hr) hp.le

theorem ite_lt_eq_max (a b : ℚ) : (if a < b then b else a) = max b a := by
  by_cases h : a < b
  · rw [if_pos h, max_eq_left (le_of_lt h)]
  · rw [if_neg h, max_eq_right (le_of_not_lt h)]

theorem days_since_launch_eq_floor {now launch_ts : ℤ} (h : launch_ts ≤ now) :
    days_since_launch now launch_ts = ⌊((now - launch_ts : ℤ) : ℚ) / 86400⌋ := by
  unfold days_since_launch
  have h1 : Int.fdiv (now - launch_ts) 86400 = (now - launch_ts) / 86400 :=
    Int.fdiv_eq_ediv _ (by norm_num)
  have h2 : (0 : ℤ) ≤ (now - launch_ts) / 86400 :=
    Int.ediv_nonneg (by omega) (by norm_num)
  rw [h1, max_eq_right h2]
  have h3 : ⌊((now - launch_ts : ℤ) : ℚ) / ((86400 : ℕ) : ℚ)⌋ =
      (now - launch_ts) / ((86400 : ℕ) : ℤ) :=
    Rat.floor_intCast_div_natCast (now - launch_ts) 86400
  norm_num at h3
  push_cast
  exact h3.symm

theorem days_since_launch_self (launch_ts : ℤ) :
    days_since_launch launch_ts launch_ts = 0 := by
  simp [days_since_launch]

theorem days_since_launch_mono {launch_ts a b : ℤ} (h : a ≤ b) :
    days_since_launch a launch_ts ≤ days_since_launch b launch_ts := by
  unfold days_since_launch
  apply max_le_max le_rfl
  rw [Int.fdiv_eq_ediv _ (by norm_num), Int.fdiv_eq_ediv _ (by norm_num)]
  exact Int.ediv_le_ediv (by norm_num) (by omega)

theorem isSome_db_user_updUser (st : St) (t : ℤ) (f : User → User)
    (hf : ∀ u, (f u).user_id = u.user_id) (v : ℤ) :
    (db_user (updUser st t f) v).isSome = (db_user st v).isSome := by
  rw [db_user_updUser st t f hf v]
  split
  · cases db_user st v <;> rfl
  · rfl

@[simp] theorem isSome_add_balance (st : St) (t : ℤ) (a : ℚ) (v : ℤ) :
    (db_user (db_add_balance st t a) v).isSome = (db_user st v).isSome :=
  isSome_db_user_updUser st t (fun u => { u with balance := u.balance + a }) (fun _ => rfl) v

@[simp] theorem isSome_set_counted (st : St) (t : ℤ) (v : ℤ) :
    (db_user (db_set_counted_for_referrer st t) v).isSome = (db_user st v).isSome :=
  isSome_db_user_updUser st t (fun u => { u with counted_for_referrer := true }) (fun _ => rfl) v

@[simp] theorem isSome_inc_cref (st : St) (t : ℤ) (k : ℤ) (v : ℤ) :
    (db_user (db_inc_counted_referrals st t k) v).isSome = (db_user st v).isSome :=
  isSome_db_user_updUser st t (fun u => { u with counted_referrals := u.counted_referrals + k })
    (fun _ => rfl) v

@[simp] theorem isSome_mark_deposited (st : St) (t : ℤ) (v : ℤ) :
    (db_user (db_mark_deposited st t) v).isSome = (db_user st v).isSome :=
  isSome_db_user_updUser st t (fun u => { u with has_deposited := true }) (fun _ => rfl) v

theorem balanceOf_add_isSome {st : St} {t : ℤ} (a : ℚ)
    (h : (db_user st t).isSome = true) :
    balanceOf (db_add_balance st t a) t = balanceOf st t + a := by
  obtain ⟨u, hu⟩ := Option.isSome_iff_exists.mp h
  rw [balanceOf_add_self a hu, balanceOf_eq_of_some hu]

theorem cRefsOf_inc_isSome {st : St} {t : ℤ} (k : ℤ)
    (h : (db_user st t).isSome = true) :
    cRefsOf (db_inc_counted_referrals st t k) t = cRefsOf st t + k := by
  obtain ⟨u, hu⟩ := Option.isSome_iff_exists.mp h
  rw [cRefsOf_inc_self k hu, cRefsOf_eq_of_some hu]

theorem flagOf_set_isSome {st : St} {t : ℤ}
    (h : (db_user st t).isSome = true) :
    flagOf (db_set_counted_for_referrer st t) t = true := by
  obtain ⟨u, hu⟩ := Option.isSome_iff_exists.mp h
  exact flagOf_set_self hu

theorem current_multiplier_eq_max (cfg : Config) (now launch_ts : ℤ) :
    current_multiplier cfg now launch_ts =
      roundTo 4 (max cfg.PAYOUT_MULT_MIN
        (cfg.PAYOUT_MULT_START -
          cfg.PAYOUT_DECAY_PER_DAY * (days_since_launch now launch_ts : ℚ))) := by
  unfold current_multiplier
  simp only [ite_lt_eq_max]

theorem current_multiplier_mono (cfg : Config) (launch_ts : ℤ)
    (hd : 0 ≤ cfg.PAYOUT_DECAY_PER_DAY) {a b : ℤ} (hab : a ≤ b) :
    current_multiplier cfg b launch_ts ≤ current_multiplier cfg a launch_ts := by
  rw [current_multiplier_eq_max, current_multiplier_eq_max]
  apply roundTo_mono
  apply max_le_max le_rfl
  apply sub_le_sub_left
  apply mul_le_mul_of_nonneg_left _ hd
  exact_mod_cast days_since_launch_mono hab

theorem min_le_current_multiplier (cfg : Config) (now launch_ts : ℤ)
    (hmm : roundTo 4 cfg.PAYOUT_MULT_MIN = cfg.PAYOUT_MULT_MIN) :
    cfg.PAYOUT_MULT_MIN ≤ current_multiplier cfg now launch_ts := by
  rw [current_multiplier_eq_max]
  calc cfg.PAYOUT_MULT_MIN = roundTo 4 cfg.PAYOUT_MULT_MIN := hmm.symm
    _ ≤ _ := roundTo_mono (le_max_left _ _)

theorem current_multiplier_at_launch (cfg : Config) (launch_ts : ℤ)
    (hle : cfg.PAYOUT_MULT_MIN ≤ cfg.PAYOUT_MULT_START)
    (hms : roundTo 4 cfg.PAYOUT_MULT_START = cfg.PAYOUT_MULT_START) :
    current_multiplier cfg launch_ts launch_ts = cfg.PAYOUT_MULT_START := by
  rw [current_multiplier_eq_max, days_since_launch_self, Int.cast_zero, mul_zero,
    sub_zero, max_eq_right hle, hms]

@[simp] theorem balanceOf_approve_dep (st : St) (i : ℕ) (m : ℚ) (v : ℤ) :
    balanceOf (db_approve_deposit st i m) v = balanceOf st v := rfl

@[simp] theorem balanceOf_mark_paid (st : St) (i : ℕ) (ts : ℤ) (v : ℤ) :
    balanceOf (db_mark_deposit_paid st i ts) v = balanceOf st v := rfl

@[simp] theorem cRefsOf_approve_dep (st : St) (i : ℕ) (m : ℚ) (v : ℤ) :
    cRefsOf (db_approve_deposit st i m) v = cRefsOf st v := rfl

@[simp] theorem flagOf_approve_dep (st : St) (i : ℕ) (m : ℚ) (v : ℤ) :
    flagOf (db_approve_deposit st i m) v = flagOf st v := rfl

@[simp] theorem isSome_approve_dep (st : St) (i : ℕ) (m : ℚ) (v : ℤ) :
    (db_user (db_approve_deposit st i m) v).isSome = (db_user st v).isSome := rfl

theorem db_user_mark_deposited_self {st : St} {t : ℤ} {u : User}
    (h : db_user st t = some u) :
    db_user (db_mark_deposited st t) t = some { u with has_deposited := true } := by
  unfold db_mark_deposited
  rw [db_user_updUser st t (fun u => { u with has_deposited := true }) (fun _ => rfl) t,
    if_pos rfl, h]
  rfl

theorem handle_deposit_approved_ref {cfg : Config} {now launch_ts : ℤ} {st : St}
    {dep_id : ℕ} {dep : Deposit} {u : User} {r : ℤ}
    (hdep : db_get_deposit st dep_id = some dep)
    (hu : db_user st dep.user_id = some u)
    (hr : u.referred_by = some r) (hr0 : r ≠ 0) :
    handle_deposit_approved cfg now launch_ts st dep_id =
      (db_add_balance
        (if u.counted_for_referrer = false then
          db_inc_counted_referrals
            (db_set_counted_for_referrer
              (db_mark_deposited
                (db_approve_deposit st dep_id (current_multiplier cfg now launch_ts))
                dep.user_id)
              dep.user_id) r 1
         else
          db_mark_deposited
            (db_approve_deposit st dep_id (current_multiplier cfg now launch_ts))
            dep.user_id)
        r (roundTo 6 (dep.amount * cfg.REF_BONUS_DEPOSIT_PERCENT)),
       some (DepRes.approved_ref_bonus
         (roundTo 6 (dep.amount * cfg.REF_BONUS_DEPOSIT_PERCENT))
         (current_multiplier cfg now launch_ts))) := by
  have hu2 : db_user
      (db_mark_deposited
        (db_approve_deposit st dep_id (current_multiplier cfg now launch_ts)) dep.user_id)
      dep.user_id = some { u with has_deposited := true } :=
    @db_user_mark_deposited_self
      (db_approve_deposit st dep_id (current_multiplier cfg now launch_ts)) dep.user_id u hu
  unfold handle_deposit_approved
  simp only [hdep, hu2, hr]
  rw [if_neg hr0]

theorem handle_deposit_approved_no_ref {cfg : Config} {now launch_ts : ℤ} {st : St}
    {dep_id : ℕ} {dep : Deposit} {u : User}
    (hdep : db_get_deposit st dep_id = some dep)
    (hu : db_user st dep.user_id = some u)
    (h : u.referred_by = none ∨ u.referred_by = some 0) :
    handle_deposit_approved cfg now launch_ts st dep_id =
      (db_mark_deposited
        (db_approve_deposit st dep_id (current_multiplier cfg now launch_ts)) dep.user_id,
       some (DepRes.approved_no_ref 0 (current_multiplier cfg now launch_ts))) := by
  have hu2 : db_user
      (db_mark_deposited
        (db_approve_deposit st dep_id (current_multiplier cfg now launch_ts)) dep.user_id)
      dep.user_id = some { u with has_deposited := true } :=
    @db_user_mark_deposited_self
      (db_approve_deposit st dep_id (current_multiplier cfg now launch_ts)) dep.user_id u hu
  unfold handle_deposit_approved
  rcases h with h | h
  · simp only [hdep, hu2, h]
  · simp only [hdep, hu2, h]
    exact if_pos trivial

/-- Claim C6: for every `now ≥ launch_ts` the multiplier equals
`max(MULT_MIN, MULT_START − DECAY_PER_DAY · ⌊(now − launch_ts)/86400⌋)`
rounded to 4 decimal places; it equals `MULT_START` at launch, is
non-increasing in `now`, and never falls below `MULT_MIN` (for any
configuration whose start/min constants are 4-decimal values with
`MULT_MIN ≤ MULT_START` and nonnegative decay). -/
theorem claim_C6 (cfg : Config) (launch_ts now now2 : ℤ)
    (h0 : launch_ts ≤ now) (h1 : now ≤ now2)
    (hms : roundTo 4 cfg.PAYOUT_MULT_START = cfg.PAYOUT_MULT_START)
    (hmm : roundTo 4 cfg.PAYOUT_MULT_MIN = cfg.PAYOUT_MULT_MIN)
    (hle : cfg.PAYOUT_MULT_MIN ≤ cfg.PAYOUT_MULT_START)
    (hd : 0 ≤ cfg.PAYOUT_DECAY_PER_DAY) :
    current_multiplier cfg now launch_ts =
      roundTo 4 (max cfg.PAYOUT_MULT_MIN
        (cfg.PAYOUT_MULT_START -
          cfg.PAYOUT_DECAY_PER_DAY * (⌊((now - launch_ts : ℤ) : ℚ) / 86400⌋ : ℚ))) ∧
    current_multiplier cfg launch_ts launch_ts = cfg.PAYOUT_MULT_START ∧
    current_multiplier cfg now2 launch_ts ≤ current_multiplier cfg now launch_ts ∧
    cfg.PAYOUT_MULT_MIN ≤ current_multiplier cfg now launch_ts := by
  refine ⟨?_, ?_, ?_, ?_⟩
  · rw [current_multiplier_eq_max, days_since_launch_eq_floor h0]
  · exact current_multiplier_at_launch cfg launch_ts hle hms
  · exact current_multiplier_mono cfg launch_ts hd h1
  · exact min_le_current_multiplier cfg now launch_ts hmm

/-- Witness for C6 at the default configuration: launch at 0, now at
day 100 (the spec scenario: the multiplier has decayed to the floor 2). -/
theorem claim_C6_witness :
    ((0 : ℤ) ≤ 8640000 ∧ (8640000 : ℤ) ≤ 9000000 ∧
      roundTo 4 defaultConfig.PAYOUT_MULT_START = defaultConfig.PAYOUT_MULT_START ∧
      roundTo 4 defaultConfig.PAYOUT_MULT_MIN = defaultConfig.PAYOUT_MULT_MIN ∧
      defaultConfig.PAYOUT_MULT_MIN ≤ defaultConfig.PAYOUT_MULT_START ∧
      (0 : ℚ) ≤ defaultConfig.PAYOUT_DECAY_PER_DAY) ∧
    defaultConfig.PAYOUT_MULT_MIN ≤ current_multiplier defaultConfig 8640000 0 ∧
    current_multiplier defaultConfig 8640000 0 = 2 := by
  have hdays : days_since_launch 8640000 0 = 100 := by decide
  refine ⟨⟨by decide, by decide, ?_, ?_, ?_, ?_⟩, ?_, ?_⟩
  · norm_num [defaultConfig, roundTo, round_eq]
  · norm_num [defaultConfig, roundTo, round_eq]
  · norm_num [defaultConfig]
  · norm_num [defaultConfig]
  · exact (claim_C6 defaultConfig 0 8640000 9000000 (by decide) (by decide)
      (by norm_num [defaultConfig, roundTo, round_eq])
      (by norm_num [defaultConfig, roundTo, round_eq])
      (by norm_num [defaultConfig]) (by norm_num [defaultConfig])).2.2.2
  · simp only [current_multiplier, hdays]
    norm_num [defaultConfig, roundTo, round_eq]

theorem handle_new_ref_join_some {cfg : Config} {st : St} {rid nid : ℤ} {ref newu : User}
    (href : db_user st rid = some ref) (hnew : db_user st nid = some newu) :
    handle_new_ref_join cfg st rid nid =
      if ref.counted_referrals < 3 ∧ newu.counted_for_referrer = false then
        (db_add_balance (db_inc_counted_referrals (db_set_counted_for_referrer st nid) rid 1)
          rid cfg.REF_BONUS_JOIN, some (JoinRes.counted cfg.REF_BONUS_JOIN))
      else (st, some (JoinRes.queued 0)) := by
  unfold handle_new_ref_join
  rw [href, hnew]

/-- Claim C5: the join-referral operation counts the new user, credits
the referrer `REF_BONUS_JOIN` and returns COUNTED exactly when the
referrer has fewer than three counted referrals and the new user is not
yet counted; otherwise it returns QUEUED with zero and changes nothing;
when either user is missing it returns nothing and changes nothing. -/
theorem claim_C5 (cfg : Config) (st : St) (rid nid : ℤ) :
    (∀ ref newu, db_user st rid = some ref → db_user st nid = some newu →
      ((ref.counted_referrals < 3 ∧ newu.counted_for_referrer = false →
        (handle_new_ref_join cfg st rid nid).2 = some (JoinRes.counted cfg.REF_BONUS_JOIN) ∧
        flagOf (handle_new_ref_join cfg st rid nid).1 nid = true ∧
        cRefsOf (handle_new_ref_join cfg st rid nid).1 rid = cRefsOf st rid + 1 ∧
        balanceOf (handle_new_ref_join cfg st rid nid).1 rid =
          balanceOf st rid + cfg.REF_BONUS_JOIN) ∧
       (¬(ref.counted_referrals < 3 ∧ newu.counted_for_referrer = false) →
        handle_new_ref_join cfg st rid nid = (st, some (JoinRes.queued 0))))) ∧
    ((db_user st rid = none ∨ db_user st nid = none) →
      handle_new_ref_join cfg st rid nid = (st, none)) := by
  constructor
  · intro ref newu href hnew
    constructor
    · intro hcond
      have hrun : handle_new_ref_join cfg st rid nid =
          (db_add_balance (db_inc_counted_referrals (db_set_counted_for_referrer st nid) rid 1)
            rid cfg.REF_BONUS_JOIN,
           some (JoinRes.counted cfg.REF_BONUS_JOIN)) :=
        (handle_new_ref_join_some href hnew).trans (if_pos hcond)
      rw [hrun]
      refine ⟨rfl, ?_, ?_, ?_⟩
      · simp only [flagOf_add_balance, flagOf_inc_cref]
        exact flagOf_set_isSome (by rw [hnew]; rfl)
      · simp only [cRefsOf_add_balance]
        rw [cRefsOf_inc_isSome 1 (by rw [isSome_set_counted, href]; rfl), cRefsOf_set_counted]
      · rw [balanceOf_add_isSome cfg.REF_BONUS_JOIN
          (by rw [isSome_inc_cref, isSome_set_counted, href]; rfl)]
        simp only [balanceOf_inc_cref, balanceOf_set_counted]
    · intro hcond
      exact (handle_new_ref_join_some href hnew).trans (if_neg hcond)
  · intro h
    unfold handle_new_ref_join
    rcases h with h | h
    · rw [h]
    · rw [h]
      cases db_user st rid <;> rfl

/-- Witness for C5: `userB` joins under `userA` (zero counted referrals),
gets counted, and `userA` is credited the join bonus. -/
theorem claim_C5_witness :
    (db_user stJoin 10 = some userA ∧ db_user stJoin 11 = some userB ∧
      userA.counted_referrals < 3 ∧ userB.counted_for_referrer = false) ∧
    (handle_new_ref_join defaultConfig stJoin 10 11).2 =
      some (JoinRes.counted defaultConfig.REF_BONUS_JOIN) ∧
    flagOf (handle_new_ref_join defaultConfig stJoin 10 11).1 11 = true ∧
    cRefsOf (handle_new_ref_join defaultConfig stJoin 10 11).1 10 = cRefsOf stJoin 10 + 1 ∧
    balanceOf (handle_new_ref_join defaultConfig stJoin 10 11).1 10 =
      balanceOf stJoin 10 + defaultConfig.REF_BONUS_JOIN := by
  refine ⟨⟨by decide, by decide, by decide, by decide⟩, ?_⟩
  exact ((claim_C5 defaultConfig stJoin 10 11).1 userA userB (by decide) (by decide)).1
    ⟨by decide, by decide⟩

/-- Claim C4: on approval of a deposit whose owner has a (registered,
nonzero) referrer, the referrer is credited
`round(REF_BONUS_DEPOSIT_PERCENT · amount, 6)` unconditionally; exactly
when the owner was not yet counted, the owner is marked counted and the
referrer's `counted_referrals` rises by one (with no quota check); when
the owner was already counted no flag or counter changes at all. -/
theorem claim_C4 (cfg : Config) (now launch_ts : ℤ) (st : St) (dep_id : ℕ) :
    ∀ dep u r, db_get_deposit st dep_id = some dep →
      db_user st dep.user_id = some u →
      u.referred_by = some r → r ≠ 0 → (db_user st r).isSome = true →
      (balanceOf (handle_deposit_approved cfg now launch_ts st dep_id).1 r =
        balanceOf st r + roundTo 6 (dep.amount * cfg.REF_BONUS_DEPOSIT_PERCENT) ∧
       (u.counted_for_referrer = false →
         flagOf (handle_deposit_approved cfg now launch_ts st dep_id).1 dep.user_id = true ∧
         cRefsOf (handle_deposit_approved cfg now launch_ts st dep_id).1 r = cRefsOf st r + 1) ∧
       (u.counted_for_referrer = true →
         ∀ v, flagOf (handle_deposit_approved cfg now launch_ts st dep_id).1 v = flagOf st v ∧
           cRefsOf (handle_deposit_approved cfg now launch_ts st dep_id).1 v = cRefsOf st v)) := by
  intro dep u r hdep hu hr hr0 hex
  rw [handle_deposit_approved_ref hdep hu hr hr0]
  dsimp only
  refine ⟨?_, ?_, ?_⟩
  · by_cases hc : u.counted_for_referrer = false
    · rw [if_pos hc, balanceOf_add_isSome _ (by
        simp only [isSome_inc_cref, isSome_set_counted, isSome_mark_deposited,
          isSome_approve_dep]
        exact hex)]
      simp only [balanceOf_inc_cref, balanceOf_set_counted, balanceOf_mark_deposited,
        balanceOf_approve_dep]
    · rw [if_neg hc, balanceOf_add_isSome _ (by
        simp only [isSome_mark_deposited, isSome_approve_dep]
        exact hex)]
      simp only [balanceOf_mark_deposited, balanceOf_approve_dep]
  · intro hc
    rw [if_pos hc]
    constructor
    · simp only [flagOf_add_balance, flagOf_inc_cref]
      apply flagOf_set_isSome
      simp only [isSome_mark_deposited, isSome_approve_dep]
      rw [hu]
      rfl
    · simp only [cRefsOf_add_balance]
      rw [cRefsOf_inc_isSome 1 (by
        simp only [isSome_set_counted, isSome_mark_deposited, isSome_approve_dep]
        exact hex)]
      simp only [cRefsOf_set_counted, cRefsOf_mark_deposited, cRefsOf_approve_dep]
  · intro hc v
    have hnc : ¬(u.counted_for_referrer = false) := by simp [hc]
    rw [if_neg hnc]
    exact ⟨by simp only [flagOf_add_balance, flagOf_mark_deposited, flagOf_approve_dep],
      by simp only [cRefsOf_add_balance, cRefsOf_mark_deposited, cRefsOf_approve_dep]⟩

/-- Witness for C4: approving `depPending` (100 units by `userDep`, who
has referrer `userRef` already holding three counted referrals) credits
`userRef` 20 and lifts the counter to four. -/
theorem claim_C4_witness :
    (db_get_deposit stPendingDep 1 = some depPending ∧
      db_user stPendingDep depPending.user_id = some userDep ∧
      userDep.referred_by = some 1 ∧ (1 : ℤ) ≠ 0 ∧
      (db_user stPendingDep 1).isSome = true ∧
      userDep.counted_for_referrer = false) ∧
    balanceOf (handle_deposit_approved defaultConfig 0 0 stPendingDep 1).1 1 =
      balanceOf stPendingDep 1 +
        roundTo 6 (depPending.amount * defaultConfig.REF_BONUS_DEPOSIT_PERCENT) ∧
    flagOf (handle_deposit_approved defaultConfig 0 0 stPendingDep 1).1 depPending.user_id = true ∧
    cRefsOf (handle_deposit_approved defaultConfig 0 0 stPendingDep 1).1 1 =
      cRefsOf stPendingDep 1 + 1 := by
  obtain ⟨h1, h2, h3⟩ := claim_C4 defaultConfig 0 0 stPendingDep 1 depPending userDep 1
    (by decide) (by decide) (by decide) (by decide) (by decide)
  exact ⟨⟨by decide, by decide, by decide, by decide, by decide, by decide⟩,
    h1, h2 (by decide)⟩

/-- Counterexample to C9 as stated: a user who registered with their own
id as referral code is their own referrer, and approving their deposit
credits the percent bonus to them — the depositor's balance changes from
0 to 20 at approval. -/
theorem claim_C9_counterexample :
    db_get_deposit stSelfRef 1 = some depSelf ∧
    depSelf.user_id = 5 ∧
    balanceOf stSelfRef 5 = 0 ∧
    balanceOf (handle_deposit_approved defaultConfig 0 0 stSelfRef 1).1 5 = 20 := by
  refine ⟨by decide, by decide, by decide, ?_⟩
  rw [show (5 : ℤ) = depSelf.user_id by decide,
    @handle_deposit_approved_ref defaultConfig 0 0 stSelfRef 1 depSelf userSelf 5
      (by decide) (by decide) (by decide) (by decide)]
  dsimp only
  rw [if_pos (by decide : userSelf.counted_for_referrer = false)]
  rw [show depSelf.user_id = (5 : ℤ) by decide]
  rw [balanceOf_add_isSome _ (by
    simp only [isSome_inc_cref, isSome_set_counted, isSome_mark_deposited, isSome_approve_dep]
    decide)]
  simp only [balanceOf_inc_cref, balanceOf_set_counted, balanceOf_mark_deposited,
    balanceOf_approve_dep]
  norm_num [balanceOf, db_user, stSelfRef, userSelf, depSelf, defaultConfig,
    roundTo, round_eq, List.find?]

/-- Claim C9, amended: on approval of a deposit the depositor's own
balance is unchanged, provided the depositor's `referred_by` is not the
depositor's own id (self-referral, which the registration flow does not
forbid, routes the referrer bonus back to the depositor). -/
theorem claim_C9_amended (cfg : Config) (now launch_ts : ℤ) (st : St) (dep_id : ℕ) :
    ∀ dep u, db_get_deposit st dep_id = some dep →
      db_user st dep.user_id = some u →
      u.referred_by ≠ some dep.user_id →
      balanceOf (handle_deposit_approved cfg now launch_ts st dep_id).1 dep.user_id =
        balanceOf st dep.user_id := by
  intro dep u hdep hu hne
  cases hrb : u.referred_by with
  | none =>
    rw [handle_deposit_approved_no_ref hdep hu (Or.inl hrb)]
    dsimp only
    simp only [balanceOf_mark_deposited, balanceOf_approve_dep]
  | some r =>
    by_cases hr0 : r = 0
    · subst hr0
      rw [handle_deposit_approved_no_ref hdep hu (Or.inr hrb)]
      dsimp only
      simp only [balanceOf_mark_deposited, balanceOf_approve_dep]
    · have hru : r ≠ dep.user_id := fun h => hne (by rw [hrb, h])
      rw [handle_deposit_approved_ref hdep hu hrb hr0]
      dsimp only
      by_cases hc : u.counted_for_referrer = false
      · rw [if_pos hc, balanceOf_add_other _ (Ne.symm hru)]
        simp only [balanceOf_inc_cref, balanceOf_set_counted, balanceOf_mark_deposited,
          balanceOf_approve_dep]
      · rw [if_neg hc, balanceOf_add_other _ (Ne.symm hru)]
        simp only [balanceOf_mark_deposited, balanceOf_approve_dep]

/-- Witness for the amended C9: approving `userDep`'s deposit (referrer
is user 1, not user 2 themselves) leaves `userDep`'s balance unchanged. -/
theorem claim_C9_witness :
    (db_get_deposit stPendingDep 1 = some depPending ∧
      db_user stPendingDep depPending.user_id = some userDep ∧
      userDep.referred_by ≠ some depPending.user_id) ∧
    balanceOf (handle_deposit_approved defaultConfig 0 0 stPendingDep 1).1 depPending.user_id =
      balanceOf stPendingDep depPending.user_id :=
  ⟨⟨by decide, by decide, by decide⟩,
    claim_C9_amended defaultConfig 0 0 stPendingDep 1 depPending userDep
      (by decide) (by decide) (by decide)⟩

@[simp] theorem balanceOf_update_wstatus (st : St) (i : ℕ) (s : WStatus) (v : ℤ) :
    balanceOf (db_update_withdrawal_status st i s) v = balanceOf st v := rfl

theorem balanceOf_sub_self {st : St} {t : ℤ} {u : User} (a : ℚ)
    (h : db_user st t = some u) :
    balanceOf (updUser st t fun x => { x with balance := x.balance - a }) t =
      u.balance - a := by
  unfold balanceOf
  rw [db_user_updUser st t (fun x => { x with balance := x.balance - a }) (fun _ => rfl) t,
    if_pos rfl, h]
  rfl

theorem db_get_withdrawal_update_self {st : St} {i : ℕ} {row : Withdrawal} (s : WStatus)
    (h : db_get_withdrawal st i = some row) :
    db_get_withdrawal (db_update_withdrawal_status st i s) i =
      some { row with status := s } := by
  unfold db_update_withdrawal_status
  rw [db_get_withdrawal_updW st i (fun w => { w with status := s }) (fun _ => rfl) i,
    if_pos rfl, h]
  rfl

/-- Claim C2: approving a pending withdrawal re-reads the user's current
balance; when it is below the requested amount the operation returns the
insufficiency result and mutates nothing at all; otherwise it debits
exactly the amount, marks the withdrawal PAID, and (for nonnegative
amounts) never drives the balance below zero. -/
theorem claim_C2 (st : St) (reqid : ℕ) :
    ∀ row u, db_get_withdrawal st reqid = some row →
      row.status = WStatus.PENDING →
      db_user st row.user_id = some u →
      ((u.balance < row.amount →
        cb_admin_approve_withdraw st reqid = (st, WAdminRes.insufficientBalance)) ∧
       (¬u.balance < row.amount →
        (cb_admin_approve_withdraw st reqid).2 = WAdminRes.paidOut ∧
        balanceOf (cb_admin_approve_withdraw st reqid).1 row.user_id =
          u.balance - row.amount ∧
        wStatusOf (cb_admin_approve_withdraw st reqid).1 reqid = some WStatus.PAID ∧
        (0 ≤ row.amount →
          0 ≤ balanceOf (cb_admin_approve_withdraw st reqid).1 row.user_id))) := by
  intro row u hrow hpend hu
  constructor
  · intro hlt
    unfold cb_admin_approve_withdraw
    simp only [hrow, hu]
    rw [if_pos hlt]
  · intro hge
    have hrun : cb_admin_approve_withdraw st reqid =
        (db_update_withdrawal_status
          (updUser st row.user_id fun x => { x with balance := x.balance - row.amount })
          reqid WStatus.PAID, WAdminRes.paidOut) := by
      unfold cb_admin_approve_withdraw
      simp only [hrow, hu]
      rw [if_neg hge]
    rw [hrun]
    dsimp only
    have hbal : balanceOf
        (db_update_withdrawal_status
          (updUser st row.user_id fun x => { x with balance := x.balance - row.amount })
          reqid WStatus.PAID) row.user_id = u.balance - row.amount := by
      rw [balanceOf_update_wstatus]
      exact balanceOf_sub_self row.amount hu
    refine ⟨rfl, hbal, ?_, ?_⟩
    · unfold wStatusOf
      rw [db_get_withdrawal_update_self WStatus.PAID
        (show db_get_withdrawal
          (updUser st row.user_id fun x => { x with balance := x.balance - row.amount })
          reqid = some row from hrow)]
      rfl
    · intro h0
      rw [hbal]
      have := le_of_not_lt hge
      linarith

/-- Witness for C2: approving the pending 45-unit withdrawal of `userWd`
(balance 50) debits to 5 and marks the request PAID. -/
theorem claim_C2_witness :
    (db_get_withdrawal stPendingWd 1 = some wdPending ∧
      wdPending.status = WStatus.PENDING ∧
      db_user stPendingWd wdPending.user_id = some userWd ∧
      ¬userWd.balance < wdPending.amount) ∧
    (cb_admin_approve_withdraw stPendingWd 1).2 = WAdminRes.paidOut ∧
    balanceOf (cb_admin_approve_withdraw stPendingWd 1).1 wdPending.user_id =
      userWd.balance - wdPending.amount ∧
    wStatusOf (cb_admin_approve_withdraw stPendingWd 1).1 1 = some WStatus.PAID := by
  obtain ⟨hlt, hge⟩ := claim_C2 stPendingWd 1 wdPending userWd (by decide) (by decide) (by decide)
  obtain ⟨a, b, c, d⟩ := hge (by decide)
  exact ⟨⟨by decide, by decide, by decide, by decide⟩, a, b, c⟩

/-- Claim C7: a withdrawal request fails — inserting nothing and
changing nothing — exactly when one of the four request-time gates
fails (`has_deposited`, minimum balance, counted referrals, requested
amount vs balance, in that order); when all pass, a PENDING withdrawal
row is appended and the users table (hence every balance) is untouched. -/
theorem claim_C7 (cfg : Config) (st : St) (uid : ℤ) (amount : ℚ)
    (network address : String) (ts : ℤ) :
    ∀ row, db_user st uid = some row →
      ((withdraw_request cfg st uid amount network address ts).1.users = st.users ∧
       (withdraw_request cfg st uid amount network address ts).1.deposits = st.deposits ∧
       (if row.has_deposited = false then
          withdraw_request cfg st uid amount network address ts = (st, WReqRes.notEligible)
        else if row.balance < cfg.MIN_WITHDRAW then
          withdraw_request cfg st uid amount network address ts = (st, WReqRes.belowMinimum)
        else if row.counted_referrals < cfg.MIN_COUNTED_REFERRALS_FOR_WITHDRAW then
          withdraw_request cfg st uid amount network address ts =
            (st, WReqRes.insufficientReferrals)
        else if row.balance < amount then
          withdraw_request cfg st uid amount network address ts =
            (st, WReqRes.insufficientBalanceReq)
        else
          (withdraw_request cfg st uid amount network address ts).1.withdrawals =
            st.withdrawals ++
              [⟨nextWId st, uid, amount, network, address, ts, WStatus.PENDING⟩] ∧
          (withdraw_request cfg st uid amount network address ts).2 =
            WReqRes.submitted (nextWId st))) := by
  intro row h
  have hrun : withdraw_request cfg st uid amount network address ts =
      (if row.has_deposited = false then (st, WReqRes.notEligible)
       else if row.balance < cfg.MIN_WITHDRAW then (st, WReqRes.belowMinimum)
       else if row.counted_referrals < cfg.MIN_COUNTED_REFERRALS_FOR_WITHDRAW then
         (st, WReqRes.insufficientReferrals)
       else if row.balance < amount then (st, WReqRes.insufficientBalanceReq)
       else ({ st with withdrawals := st.withdrawals ++
           [⟨nextWId st, uid, amount, network, address, ts, WStatus.PENDING⟩] },
         WReqRes.submitted (nextWId st))) := by
    unfold withdraw_request db_insert_withdrawal
    simp only [h]
  rw [hrun]
  split_ifs with h1 h2 h3 h4
  · exact ⟨rfl, rfl, rfl⟩
  · exact ⟨rfl, rfl, rfl⟩
  · exact ⟨rfl, rfl, rfl⟩
  · exact ⟨rfl, rfl, rfl⟩
  · exact ⟨rfl, rfl, rfl, rfl⟩

/-- Witness for C7: `userWd` (has a paid deposit, balance 50, five
counted referrals) successfully submits a 45-unit request, which is
appended PENDING with the users table untouched. -/
theorem claim_C7_witness :
    (db_user stEligible 7 = some userWd ∧
      ¬userWd.has_deposited = false ∧
      ¬userWd.balance < defaultConfig.MIN_WITHDRAW ∧
      ¬userWd.counted_referrals < defaultConfig.MIN_COUNTED_REFERRALS_FOR_WITHDRAW ∧
      ¬userWd.balance < 45) ∧
    (withdraw_request defaultConfig stEligible 7 45 "TRC20" "addr" 0).1.users =
      stEligible.users ∧
    (withdraw_request defaultConfig stEligible 7 45 "TRC20" "addr" 0).1.withdrawals =
      stEligible.withdrawals ++
        [⟨nextWId stEligible, 7, 45, "TRC20", "addr", 0, WStatus.PENDING⟩] ∧
    (withdraw_request defaultConfig stEligible 7 45 "TRC20" "addr" 0).2 =
      WReqRes.submitted (nextWId stEligible) := by
  obtain ⟨hu, hd, hite⟩ :=
    claim_C7 defaultConfig stEligible 7 45 "TRC20" "addr" 0 userWd (by decide)
  rw [if_neg (by decide), if_neg (by decide), if_neg (by decide), if_neg (by decide)] at hite
  exact ⟨⟨by decide, by decide, by decide, by decide, by decide⟩, hu, hite.1, hite.2⟩

/-- Claim C10: the request flow never checks that the amount is
positive — an eligible user entering −10 gets a PENDING withdrawal with
negative amount; its approval passes the balance re-check and the debit
`balance − (−10)` raises the balance from 50 to 60. -/
theorem claim_C10 :
    (withdraw_request defaultConfig stEligible 7 (-10) "TRC20" "addr" 0).2 =
      WReqRes.submitted 1 ∧
    db_get_withdrawal (withdraw_request defaultConfig stEligible 7 (-10) "TRC20" "addr" 0).1 1 =
      some ⟨1, 7, -10, "TRC20", "addr", 0, WStatus.PENDING⟩ ∧
    balanceOf (withdraw_request defaultConfig stEligible 7 (-10) "TRC20" "addr" 0).1 7 = 50 ∧
    (cb_admin_approve_withdraw
      (withdraw_request defaultConfig stEligible 7 (-10) "TRC20" "addr" 0).1 1).2 =
      WAdminRes.paidOut ∧
    balanceOf (cb_admin_approve_withdraw
      (withdraw_request defaultConfig stEligible 7 (-10) "TRC20" "addr" 0).1 1).1 7 = 60 := by
  refine ⟨by decide, by decide, by decide, by decide, ?_⟩
  norm_num [withdraw_request, cb_admin_approve_withdraw, db_get_withdrawal,
    db_insert_withdrawal, nextWId, db_update_withdrawal_status, updW, updUser,
    db_user, balanceOf, stEligible, userWd, defaultConfig, List.find?]

/-- Claim C1 (code behavior at the failing input): after `depPending` is
approved once it is APPROVED, no longer PENDING, and the referrer holds
the 20-unit bonus; a second admin approval of the same deposit is NOT
rejected — `cb_admin` only checks existence — and it reapplies
`handle_deposit_approved`, reporting the bonus again and crediting the
referrer a second time (balance 40). -/
theorem claim_C1_bug :
    (db_get_deposit (handle_deposit_approved defaultConfig 0 0 stPendingDep 1).1 1).map
        Deposit.status = some DStatus.APPROVED ∧
    balanceOf (handle_deposit_approved defaultConfig 0 0 stPendingDep 1).1 1 = 20 ∧
    (cb_admin_approve_deposit defaultConfig 0 0
        (handle_deposit_approved defaultConfig 0 0 stPendingDep 1).1 1).2 =
      DepAdminRes.approvedDep (some (DepRes.approved_ref_bonus 20 5)) ∧
    balanceOf (cb_admin_approve_deposit defaultConfig 0 0
        (handle_deposit_approved defaultConfig 0 0 stPendingDep 1).1 1).1 1 = 40 ∧
    wStatusOf (cb_admin_approve_withdraw
        ⟨[⟨7, "wd", 100, none, false, 5, 5, true⟩], [],
          [⟨1, 7, 45, "TRC20", "addr", 0, WStatus.PENDING⟩]⟩ 1).1 1 = some WStatus.PAID ∧
    (cb_admin_approve_withdraw (cb_admin_approve_withdraw
        ⟨[⟨7, "wd", 100, none, false, 5, 5, true⟩], [],
          [⟨1, 7, 45, "TRC20", "addr", 0, WStatus.PENDING⟩]⟩ 1).1 1).2 =
      WAdminRes.paidOut ∧
    balanceOf (cb_admin_approve_withdraw (cb_admin_approve_withdraw
        ⟨[⟨7, "wd", 100, none, false, 5, 5, true⟩], [],
          [⟨1, 7, 45, "TRC20", "addr", 0, WStatus.PENDING⟩]⟩ 1).1 1).1 7 = 10 := by
  have hdays : days_since_launch 0 0 = 0 := by decide
  have hm : current_multiplier defaultConfig 0 0 = 5 := by
    simp only [current_multiplier, hdays]
    norm_num [defaultConfig, roundTo, round_eq]
  have hb : roundTo 6 ((100 : ℚ) * defaultConfig.REF_BONUS_DEPOSIT_PERCENT) = 20 := by
    norm_num [defaultConfig, roundTo, round_eq]
  have hwd : wStatusOf (cb_admin_approve_withdraw
        ⟨[⟨7, "wd", 100, none, false, 5, 5, true⟩], [],
          [⟨1, 7, 45, "TRC20", "addr", 0, WStatus.PENDING⟩]⟩ 1).1 1 = some WStatus.PAID ∧
      (cb_admin_approve_withdraw (cb_admin_approve_withdraw
        ⟨[⟨7, "wd", 100, none, false, 5, 5, true⟩], [],
          [⟨1, 7, 45, "TRC20", "addr", 0, WStatus.PENDING⟩]⟩ 1).1 1).2 =
        WAdminRes.paidOut ∧
      balanceOf (cb_admin_approve_withdraw (cb_admin_approve_withdraw
        ⟨[⟨7, "wd", 100, none, false, 5, 5, true⟩], [],
          [⟨1, 7, 45, "TRC20", "addr", 0, WStatus.PENDING⟩]⟩ 1).1 1).1 7 = 10 := by
    norm_num [cb_admin_approve_withdraw, db_get_withdrawal, db_user, updUser, updW,
      db_update_withdrawal_status, balanceOf, wStatusOf, List.find?]
  refine ⟨?_, ?_, ?_, ?_, hwd.1, hwd.2.1, hwd.2.2⟩ <;>
    norm_num [handle_deposit_approved, cb_admin_approve_deposit, hm, hb,
      db_get_deposit, db_user, db_approve_deposit, db_mark_deposited,
      db_set_counted_for_referrer, db_inc_counted_referrals, db_add_balance,
      updUser, updDep, balanceOf, stPendingDep, userRef, userDep, depPending,
      defaultConfig, List.find?] <;>
    norm_num [roundTo, round_eq, current_multiplier, days_since_launch, hdays, defaultConfig]

theorem handle_deposit_approved_no_user {cfg : Config} {now launch_ts : ℤ} {st : St}
    {dep_id : ℕ} {dep : Deposit}
    (hdep : db_get_deposit st dep_id = some dep)
    (hu : db_user st dep.user_id = none) :
    handle_deposit_approved cfg now launch_ts st dep_id =
      (db_mark_deposited
        (db_approve_deposit st dep_id (current_multiplier cfg now launch_ts)) dep.user_id,
       some (DepRes.approved_no_ref 0 (current_multiplier cfg now launch_ts))) := by
  have hu2 : db_user
      (db_mark_deposited
        (db_approve_deposit st dep_id (current_multiplier cfg now launch_ts)) dep.user_id)
      dep.user_id = none := by
    unfold db_mark_deposited
    rw [db_user_updUser _ _ (fun u => { u with has_deposited := true }) (fun _ => rfl) _,
      if_pos rfl]
    rw [show db_user (db_approve_deposit st dep_id (current_multiplier cfg now launch_ts))
        dep.user_id = db_user st dep.user_id from rfl, hu]
    rfl
  unfold handle_deposit_approved
  simp only [hdep, hu2]

theorem flagOf_step_mono (cfg : Config) (now launch_ts : ℤ) (st : St) (op : Op) (u : ℤ)
    (h : flagOf st u = true) : flagOf (step cfg now launch_ts st op) u = true := by
  cases op with
  | join r n =>
    show flagOf (handle_new_ref_join cfg st r n).1 u = true
    cases href : db_user st r with
    | none =>
      unfold handle_new_ref_join
      rw [href]
      exact h
    | some ref =>
      cases hnew : db_user st n with
      | none =>
        unfold handle_new_ref_join
        rw [href, hnew]
        exact h
      | some newu =>
        rw [handle_new_ref_join_some href hnew]
        by_cases hc : ref.counted_referrals < 3 ∧ newu.counted_for_referrer = false
        · rw [if_pos hc]
          dsimp only
          simp only [flagOf_add_balance, flagOf_inc_cref]
          by_cases hun : u = n
          · subst hun
            exact flagOf_set_isSome (by rw [hnew]; rfl)
          · rw [flagOf_set_other hun]
            exact h
        · rw [if_neg hc]
          exact h
  | approveDep i =>
    show flagOf (handle_deposit_approved cfg now launch_ts st i).1 u = true
    cases hdep : db_get_deposit st i with
    | none =>
      unfold handle_deposit_approved
      rw [hdep]
      exact h
    | some dep =>
      cases hu : db_user st dep.user_id with
      | none =>
        rw [handle_deposit_approved_no_user hdep hu]
        dsimp only
        simp only [flagOf_mark_deposited, flagOf_approve_dep]
        exact h
      | some usr =>
        cases hrb : usr.referred_by with
        | none =>
          rw [handle_deposit_approved_no_ref hdep hu (Or.inl hrb)]
          dsimp only
          simp only [flagOf_mark_deposited, flagOf_approve_dep]
          exact h
        | some r =>
          by_cases hr0 : r = 0
          · subst hr0
            rw [handle_deposit_approved_no_ref hdep hu (Or.inr hrb)]
            dsimp only
            simp only [flagOf_mark_deposited, flagOf_approve_dep]
            exact h
          · rw [handle_deposit_approved_ref hdep hu hrb hr0]
            dsimp only
            by_cases hc : usr.counted_for_referrer = false
            · rw [if_pos hc]
              simp only [flagOf_add_balance, flagOf_inc_cref]
              by_cases hun : u = dep.user_id
              · subst hun
                exact flagOf_set_isSome (by
                  simp only [isSome_mark_deposited, isSome_approve_dep]
                  rw [hu]
                  rfl)
              · rw [flagOf_set_other hun]
                simp only [flagOf_mark_deposited, flagOf_approve_dep]
                exact h
            · rw [if_neg hc]
              simp only [flagOf_add_balance, flagOf_mark_deposited, flagOf_approve_dep]
              exact h

theorem flipCount_eq_zero_of_true (cfg : Config) (now launch_ts : ℤ) (u : ℤ) :
    ∀ (ops : List Op) (st : St), flagOf st u = true →
      flipCount cfg now launch_ts u st ops = 0 := by
  intro ops
  induction ops with
  | nil => intro st _; rfl
  | cons op ops ih =>
    intro st h
    unfold flipCount
    rw [if_neg (by simp [h]), ih _ (flagOf_step_mono cfg now launch_ts st op u h)]

/-- Claim C8: along any sequence of join and deposit-approval
operations a user's `counted_for_referrer` flag flips false→true at
most once, and once the flag is set no further operation attributed to
that user (a join of that user, or approval of a deposit owned by that
user) changes anyone's `counted_referrals`. -/
theorem claim_C8 (cfg : Config) (now launch_ts : ℤ) (u : ℤ) :
    (∀ (ops : List Op) (st : St), flipCount cfg now launch_ts u st ops ≤ 1) ∧
    (∀ (st : St) (r : ℤ), flagOf st u = true →
      ∀ v, cRefsOf (step cfg now launch_ts st (Op.join r u)) v = cRefsOf st v) ∧
    (∀ (st : St) (i : ℕ) (dep : Deposit), db_get_deposit st i = some dep →
      dep.user_id = u → flagOf st u = true →
      ∀ v, cRefsOf (step cfg now launch_ts st (Op.approveDep i)) v = cRefsOf st v) := by
  refine ⟨?_, ?_, ?_⟩
  · intro ops
    induction ops with
    | nil => intro st; simp [flipCount]
    | cons op ops ih =>
      intro st
      unfold flipCount
      by_cases hflip : flagOf st u = false ∧
          flagOf (step cfg now launch_ts st op) u = true
      · rw [if_pos hflip, flipCount_eq_zero_of_true cfg now launch_ts u ops _ hflip.2]
      · rw [if_neg hflip]
        simpa using ih (step cfg now launch_ts st op)
  · intro st r hflag v
    show cRefsOf (handle_new_ref_join cfg st r u).1 v = cRefsOf st v
    cases href : db_user st r with
    | none =>
      unfold handle_new_ref_join
      rw [href]
    | some ref =>
      cases hnew : db_user st u with
      | none =>
        unfold handle_new_ref_join
        rw [href, hnew]
      | some newu =>
        have htrue : newu.counted_for_referrer = true := by
          rw [← flagOf_eq_of_some hnew]
          exact hflag
        rw [handle_new_ref_join_some href hnew, if_neg (by simp [htrue])]
  · intro st i dep hdep huid hflag v
    show cRefsOf (handle_deposit_approved cfg now launch_ts st i).1 v = cRefsOf st v
    cases hu : db_user st dep.user_id with
    | none =>
      rw [handle_deposit_approved_no_user hdep hu]
      dsimp only
      simp only [cRefsOf_mark_deposited, cRefsOf_approve_dep]
    | some usr =>
      have htrue : usr.counted_for_referrer = true := by
        rw [← flagOf_eq_of_some hu, huid]
        exact hflag
      cases hrb : usr.referred_by with
      | none =>
        rw [handle_deposit_approved_no_ref hdep hu (Or.inl hrb)]
        dsimp only
        simp only [cRefsOf_mark_deposited, cRefsOf_approve_dep]
      | some r =>
        by_cases hr0 : r = 0
        · subst hr0
          rw [handle_deposit_approved_no_ref hdep hu (Or.inr hrb)]
          dsimp only
          simp only [cRefsOf_mark_deposited, cRefsOf_approve_dep]
        · rw [handle_deposit_approved_ref hdep hu hrb hr0]
          dsimp only
          rw [if_neg (by simp [htrue])]
          simp only [cRefsOf_add_balance, cRefsOf_mark_deposited, cRefsOf_approve_dep]

/-- Witness for C8: `userB` joining twice under `userA` flips the flag
at most once, and with the flag already set a repeated join changes no
counter. -/
theorem claim_C8_witness :
    flipCount defaultConfig 0 0 11 stJoin [Op.join 10 11, Op.join 10 11] ≤ 1 ∧
    flagOf ⟨[userA, ⟨11, "B", 0, some 10, true, 0, 0, false⟩], [], []⟩ 11 = true ∧
    cRefsOf (step defaultConfig 0 0
        ⟨[userA, ⟨11, "B", 0, some 10, true, 0, 0, false⟩], [], []⟩ (Op.join 10 11)) 10 =
      cRefsOf ⟨[userA, ⟨11, "B", 0, some 10, true, 0, 0, false⟩], [], []⟩ 10 := by
  obtain ⟨h1, h2, _⟩ := claim_C8 defaultConfig 0 0 11
  exact ⟨h1 _ stJoin, by decide, h2 _ 10 (by decide) 10⟩

theorem find?_eq_self_of_nodup {l : List Deposit} (hnd : (l.map Deposit.id).Nodup)
    {d : Deposit} (hd : d ∈ l) :
    l.find? (fun e => decide (e.id = d.id)) = some d := by
  induction l with
  | nil => cases hd
  | cons x xs ih =>
    rw [List.map_cons, List.nodup_cons] at hnd
    rcases List.mem_cons.mp hd with rfl | hdl
    · exact List.find?_cons_of_pos _ (by simp)
    · have hne : ¬x.id = d.id := fun hh =>
        hnd.1 (hh ▸ List.mem_map_of_mem Deposit.id hdl)
      rw [List.find?_cons_of_neg _ (by simpa using hne)]
      exact ih hnd.2 hdl

theorem db_get_deposit_process (cfg : Config) (now launch_ts : ℤ) (st : St)
    (d : Deposit) (j : ℕ) :
    db_get_deposit (processMatured cfg now launch_ts st d) j =
      if j = d.id then
        (db_get_deposit st j).map (fun e => { e with status := DStatus.PAID, payout_ts := now })
      else db_get_deposit st j := by
  unfold processMatured db_mark_deposit_paid
  rw [db_get_deposit_updDep _ _ (fun e => { e with status := DStatus.PAID, payout_ts := now })
    (fun _ => rfl) j]
  rfl

theorem isSome_process (cfg : Config) (now launch_ts : ℤ) (st : St) (d : Deposit) (v : ℤ) :
    (db_user (processMatured cfg now launch_ts st d) v).isSome = (db_user st v).isSome := by
  unfold processMatured
  exact isSome_add_balance st d.user_id (payoutOf cfg now launch_ts d) v

theorem balanceOf_process (cfg : Config) (now launch_ts : ℤ) (st : St) (d : Deposit)
    (v : ℤ) (hv : (db_user st v).isSome = true) :
    balanceOf (processMatured cfg now launch_ts st d) v =
      balanceOf st v + (if d.user_id = v then payoutOf cfg now launch_ts d else 0) := by
  unfold processMatured
  rw [balanceOf_mark_paid]
  by_cases h : d.user_id = v
  · subst h
    rw [if_pos rfl]
    exact balanceOf_add_isSome _ hv
  · rw [if_neg h, balanceOf_add_other _ (fun hh => h hh.symm), add_zero]

theorem balanceOf_fold (cfg : Config) (now launch_ts : ℤ) (l : List Deposit) :
    ∀ (st : St) (v : ℤ), (db_user st v).isSome = true →
      balanceOf (l.foldl (processMatured cfg now launch_ts) st) v =
        balanceOf st v + payoutSum cfg now launch_ts v l := by
  induction l with
  | nil => intro st v _; simp [payoutSum]
  | cons d l ih =>
    intro st v hv
    rw [List.foldl_cons, ih _ v (by rw [isSome_process]; exact hv),
      balanceOf_process cfg now launch_ts st d v hv]
    unfold payoutSum
    by_cases h : d.user_id = v
    · rw [if_pos h, List.filter_cons_of_pos (by simp [h]), List.map_cons, List.sum_cons]
      ring
    · rw [if_neg h, List.filter_cons_of_neg (by simp [h])]
      ring

theorem getDeposit_fold_frame (cfg : Config) (now launch_ts : ℤ) (l : List Deposit) :
    ∀ (st : St) (j : ℕ), j ∉ l.map Deposit.id →
      db_get_deposit (l.foldl (processMatured cfg now launch_ts) st) j =
        db_get_deposit st j := by
  induction l with
  | nil => intro st j _; rfl
  | cons d l ih =>
    intro st j h
    rw [List.map_cons, List.mem_cons] at h
    push_neg at h
    rw [List.foldl_cons, ih _ j h.2, db_get_deposit_process, if_neg h.1]

theorem getDeposit_fold_marks (cfg : Config) (now launch_ts : ℤ) (l : List Deposit) :
    ∀ st : St, (l.map Deposit.id).Nodup →
      (∀ d ∈ l, db_get_deposit st d.id = some d) →
      ∀ d ∈ l, db_get_deposit (l.foldl (processMatured cfg now launch_ts) st) d.id =
        some { d with status := DStatus.PAID, payout_ts := now } := by
  induction l with
  | nil => intro st _ _ d hd; cases hd
  | cons x l ih =>
    intro st hnd hall d hd
    rw [List.map_cons, List.nodup_cons] at hnd
    rw [List.foldl_cons]
    rcases List.mem_cons.mp hd with rfl | hdl
    · rw [getDeposit_fold_frame cfg now launch_ts l _ d.id hnd.1,
        db_get_deposit_process, if_pos rfl, hall d (List.mem_cons_self d l)]
      rfl
    · refine ih _ hnd.2 ?_ d hdl
      intro e he
      have hne : e.id ≠ x.id := fun hh =>
        hnd.1 (hh ▸ List.mem_map_of_mem Deposit.id he)
      rw [db_get_deposit_process, if_neg hne]
      exact hall e (List.mem_cons_of_mem x he)

/-- Claim C3: one sweep selects exactly the deposits that are APPROVED
with zero payout timestamp and submitted at or before `now −
PAYOUT_SECONDS`; every selected deposit is marked PAID with timestamp
`now`, every other deposit row is untouched, and each user's balance
grows by the sum of `round(amount × multiplier, 6)` over their selected
deposits, the multiplier being the stored one when positive and the
current live one otherwise (hypothesis: deposit ids are unique, the
table's primary-key invariant). -/
theorem claim_C3 (cfg : Config) (now launch_ts : ℤ) (st : St)
    (hnd : (st.deposits.map Deposit.id).Nodup) :
    (∀ d ∈ st.deposits, matured cfg now d = true →
      db_get_deposit (sweep cfg now launch_ts st) d.id =
        some { d with status := DStatus.PAID, payout_ts := now }) ∧
    (∀ d ∈ st.deposits, matured cfg now d = false →
      db_get_deposit (sweep cfg now launch_ts st) d.id = db_get_deposit st d.id) ∧
    (∀ v, (db_user st v).isSome = true →
      balanceOf (sweep cfg now launch_ts st) v =
        balanceOf st v + payoutSum cfg now launch_ts v (maturedSelection cfg now st)) ∧
    (∀ d, d ∈ maturedSelection cfg now st ↔
      d ∈ st.deposits ∧ d.status = DStatus.APPROVED ∧ d.payout_ts = 0 ∧
        d.ts ≤ now - cfg.PAYOUT_SECONDS) ∧
    (∀ d, payoutOf cfg now launch_ts d =
      roundTo 6 (d.amount * (if 0 < d.payout_mult then d.payout_mult
        else current_multiplier cfg now launch_ts))) := by
  have hsub : List.Sublist (maturedSelection cfg now st) st.deposits :=
    List.filter_sublist _
  have hndsel : ((maturedSelection cfg now st).map Deposit.id).Nodup :=
    List.Sublist.nodup (List.Sublist.map Deposit.id hsub) hnd
  have hall : ∀ d ∈ maturedSelection cfg now st, db_get_deposit st d.id = some d :=
    fun d hd => find?_eq_self_of_nodup hnd (List.mem_of_mem_filter hd)
  refine ⟨?_, ?_, ?_, ?_, fun _ => rfl⟩
  · intro d hd hm
    have hdsel : d ∈ maturedSelection cfg now st := List.mem_filter.mpr ⟨hd, hm⟩
    exact getDeposit_fold_marks cfg now launch_ts _ st hndsel hall d hdsel
  · intro d hd hm
    apply getDeposit_fold_frame
    intro hmem
    obtain ⟨e, hesel, heid⟩ := List.mem_map.mp hmem
    have he : db_get_deposit st e.id = some e := hall e hesel
    have hd' : db_get_deposit st d.id = some d := find?_eq_self_of_nodup hnd hd
    rw [heid] at he
    have : e = d := by
      have := he.symm.trans hd'
      exact Option.some.inj this
    subst this
    rw [List.mem_filter] at hesel
    rw [hesel.2] at hm
    cases hm
  · intro v hv
    exact balanceOf_fold cfg now launch_ts _ st v hv
  · intro d
    rw [maturedSelection, List.mem_filter, matured]
    simp only [decide_eq_true_eq]

/-- Witness for C3: sweeping `stMatured` at time 86400 pays out the
single matured deposit (100 at locked multiplier 4) — the row becomes
PAID with timestamp 86400 and user 2 is credited 400. -/
theorem claim_C3_witness :
    ((stMatured.deposits.map Deposit.id).Nodup ∧
      depMatured ∈ stMatured.deposits ∧
      matured defaultConfig 86400 depMatured = true ∧
      (db_user stMatured 2).isSome = true) ∧
    db_get_deposit (sweep defaultConfig 86400 0 stMatured) 1 =
      some ⟨1, 2, 100, "SOL", "tx3", 0, DStatus.PAID, 4, 86400⟩ ∧
    balanceOf (sweep defaultConfig 86400 0 stMatured) 2 = 400 := by
  obtain ⟨h1, _, h3, _, _⟩ := claim_C3 defaultConfig 86400 0 stMatured (by decide)
  refine ⟨⟨by decide, by decide, by decide, by decide⟩, ?_, ?_⟩
  · exact h1 depMatured (by decide) (by decide)
  · rw [h3 2 (by decide)]
    norm_num [payoutSum, maturedSelection, payoutOf, effective_mult, matured,
      stMatured, depMatured, balanceOf, db_user, userDep, userRef, List.find?,
      List.filter, roundTo, round_eq, defaultConfig]

end EarnX
